import Mathlib

/-!
Verification of `src/toil/lib/singularity.py` (container invocation and
lifecycle management).  The Python functions are shallowly embedded as
executable Lean definitions:

* the command composer inside `apiSingularityCall` (lines 166-193) as
  `composeFlatL` / `composePipelineL`, built on `quoteL` which embeds
  Python's `shlex.quote` (the `from shlex import quote` import);
* the post-composition control flow of `apiSingularityCall`
  (lines 203-243) as `apiSingularityCall`, which records the interactions
  with the external runtime client and the job-completion hook as an event
  trace.  The external client accessor (line 207) is modelled as
  succeeding, per the spec's external-collaborator assumption;
* `dockerKill` (lines 250-277) directly: the module never binds the name
  `docker` (it has only `from docker.errors import ...`), so line 262
  raises `NameError` on every call; the unreachable try-block loop is
  embedded separately as `dockerKillBody`, a trace-consuming function
  where the runtime daemon's successive answers to `containers.get` are
  supplied as a list of `Probe` responses;
* `dockerStop` (lines 280-287) and `containerIsRunning` (lines 290-317)
  directly.

Strings are handled at the `List Char` level.  Characters that are
delicate to write literally are named constants (`squote`, `dquote`,
`bslash`, `btick`, `htab`, `nlchar`).
-/

namespace ToilSing

/-- The single-quote character. -/
def squote : Char := Char.ofNat 39

/-- The double-quote character. -/
def dquote : Char := Char.ofNat 34

/-- The backslash character. -/
def bslash : Char := Char.ofNat 92

/-- The backtick character. -/
def btick : Char := Char.ofNat 96

/-- The horizontal-tab character. -/
def htab : Char := Char.ofNat 9

/-- The newline character. -/
def nlchar : Char := Char.ofNat 10

/-- Embeds the character class of CPython's `shlex.quote`: a character is
safe iff it does not match shlex's unsafe-character regex (compiled with
`re.ASCII`), i.e. iff it is an ASCII word character or one of
`@ % + = : , . / -`. -/
def isSafeChar (c : Char) : Bool :=
  c.isAlphanum || c = '_' || c = '@' || c = '%' || c = '+' || c = '=' ||
  c = ':' || c = ',' || c = '.' || c = '/' || c = '-'

/-- Embeds `s.replace("'", "'\"'\"'")` from CPython's `shlex.quote`:
every single quote becomes the five-character sequence
quote, double-quote, quote, double-quote, quote. -/
def escBody : List Char → List Char
  | [] => []
  | c :: cs =>
    if c = squote then squote :: dquote :: squote :: dquote :: squote :: escBody cs
    else c :: escBody cs

/-- Embeds CPython's `shlex.quote` (imported at the top of
`singularity.py`): the empty string becomes `''`; a string of safe
characters is returned unchanged; anything else is wrapped in single
quotes with embedded single quotes escaped by `escBody`. -/
def quoteL (s : List Char) : List Char :=
  if s = [] then [squote, squote]
  else if s.all isSafeChar then s
  else squote :: (escBody s ++ [squote])

/-- Embeds Python's `' '.join(...)`: concatenate the pieces with a single
space between consecutive pieces. -/
def joinSep : List (List Char) → List Char
  | [] => []
  | [x] => x
  | x :: y :: xs => x ++ ' ' :: joinSep (y :: xs)

/-- The flat-parameter command composition of `apiSingularityCall`
(line 192): `command = ' '.join(quote(arg) for arg in parameters)`. -/
def composeFlatL (parameters : List (List Char)) : List Char :=
  joinSep (parameters.map quoteL)

/-- Embeds Python's `' | '.join(...)` (line 176): concatenate the stages
with ` | ` between consecutive stages. -/
def joinBar : List (List Char) → List Char
  | [] => []
  | [x] => x
  | x :: y :: xs => x ++ ' ' :: '|' :: ' ' :: joinBar (y :: xs)

/-- The failure-propagating guard `pipe_prefix` of line 177. -/
def guardL : List Char := "set -eo pipefail && ".data

/-- The nested-parameter (pipeline) command composition of
`apiSingularityCall` (lines 173-178): each inner list is quoted and
space-joined (`chain_params`), the stages are joined with `' | '`, and
the pipefail guard is prepended.  (The source then wraps this single
string after the runscript, by default `['/bin/bash', '-c']`; the claims
concern the composed string itself.) -/
def composePipelineL (parameters : List (List (List Char))) : List Char :=
  guardL ++ joinBar (parameters.map composeFlatL)

/-- Tokenizer mode: outside quotes, inside single quotes, inside double
quotes. -/
inductive SMode
  | norm
  | single
  | double
deriving DecidableEq

/-- Modelled from the spec: POSIX shell tokenization rules ("re-splitting
the composed command string by POSIX shell tokenization rules").  The
arguments are the current mode, the accumulated current token (reversed),
whether a token is in progress (so that `''` yields an empty token), and
the remaining input.  Outside quotes, blanks separate tokens, single and
double quotes open quoted sections, and a backslash escapes the next
character; inside single quotes everything is literal; inside double
quotes a backslash is special only before `$`, backtick, `"` and
backslash. -/
def shellSplitAux : SMode → List Char → Bool → List Char → List (List Char)
  | .norm, acc, started, [] => if started then [acc.reverse] else []
  | .norm, acc, started, c :: cs =>
    if c = ' ' ∨ c = htab ∨ c = nlchar then
      if started then acc.reverse :: shellSplitAux .norm [] false cs
      else shellSplitAux .norm [] false cs
    else if c = squote then shellSplitAux .single acc true cs
    else if c = dquote then shellSplitAux .double acc true cs
    else if c = bslash then
      match cs with
      | [] => if started then [acc.reverse] else []
      | d :: ds => shellSplitAux .norm (d :: acc) true ds
    else shellSplitAux .norm (c :: acc) true cs
  | .single, acc, _, [] => [acc.reverse]
  | .single, acc, started, c :: cs =>
    if c = squote then shellSplitAux .norm acc started cs
    else shellSplitAux .single (c :: acc) started cs
  | .double, acc, _, [] => [acc.reverse]
  | .double, acc, started, c :: cs =>
    if c = dquote then shellSplitAux .norm acc started cs
    else if c = bslash then
      match cs with
      | [] => [(bslash :: acc).reverse]
      | d :: ds =>
        if d = dquote ∨ d = bslash ∨ d = '$' ∨ d = btick then
          shellSplitAux .double (d :: acc) started ds
        else shellSplitAux .double (bslash :: d :: acc) started ds
    else shellSplitAux .double (c :: acc) started cs

/-- Modelled from the spec: splitting a command line into its tokens by
POSIX shell tokenization rules, starting outside quotes with no token in
progress. -/
def shellSplit (l : List Char) : List (List Char) :=
  shellSplitAux .norm [] false l

/-- The module-level lifecycle directive `FORGO = 0` (line 24). -/
def FORGO : Int := 0

/-- The module-level lifecycle directive `STOP = 1` (line 25). -/
def STOP : Int := 1

/-- The module-level lifecycle directive `RM = 2` (line 26). -/
def RM : Int := 2

/-- One observable interaction of `apiSingularityCall` with its external
collaborators: obtaining the runtime client (line 207), registering a
deferred action with the job-completion hook (`job.defer`, lines 210, 216,
218), or invoking the runtime client's run / execute method (lines 230,
237).  `deferStop` and `deferKill` are, modelled from the spec, the
registrations of the Deferred Terminator's graceful-stop and force-kill:
the source registers the callables `singularityStop` / `singularityKill`,
which are not declared in this file of the repository. -/
inductive Event
  | getClient
  | deferStop (name : String)
  | deferKill (name : String)
  | clientRun
  | clientExecute
deriving DecidableEq

/-- A Python exception raised by `apiSingularityCall`: the failed `assert`
of line 204, or the unbound-local read of `auto_remove` at line 220. -/
inductive PyError
  | assertionError
  | nameError
deriving DecidableEq

/-- The observable result of one `apiSingularityCall` invocation: the
trace of external interactions, the value of the local `stream` after
line 134 (`stream = stream or detach`), and the outcome (normal return or
raised exception). -/
structure CallResult where
  events : List Event
  streamLocal : Bool
  outcome : Except PyError Unit

/-- The validation of line 204: `deferParam in (None, FORGO, STOP, RM)`. -/
def validDefer (deferParam : Option Int) : Prop :=
  deferParam = none ∨ deferParam = some FORGO ∨ deferParam = some STOP ∨
    deferParam = some RM

instance (dp : Option Int) : Decidable (validDefer dp) := by
  unfold validDefer; infer_instance

/-- Embeds the post-composition control flow of `apiSingularityCall`
(lines 134 and 203-243).  Line 204 asserts that `deferParam` is valid,
else an `AssertionError` is raised before any external interaction.  The
client is then obtained (line 207); a graceful-stop is deferred for
`STOP` (lines 209-210); the `FORGO` / `RM` / `remove` chain (lines
212-218) possibly defers a force-kill.  Line 220 then reads the never-
assigned local name `auto_remove`, raising `NameError`, so the client's
run / execute calls of lines 228-243 are unreachable and the function
never returns normally. -/
def apiSingularityCall (deferParam : Option Int) (remove : Bool)
    (containerName : String) (stream detach : Bool) : CallResult :=
  let streamL := stream || detach
  if validDefer deferParam then
    let ev1 :=
      if deferParam = some STOP then
        [Event.getClient, Event.deferStop containerName]
      else [Event.getClient]
    let ev2 :=
      if deferParam = some FORGO then ev1
      else if deferParam = some RM then ev1 ++ [Event.deferKill containerName]
      else if remove then ev1 ++ [Event.deferKill containerName]
      else ev1
    ⟨ev2, streamL, Except.error PyError.nameError⟩
  else
    ⟨[], streamL, Except.error PyError.assertionError⟩

/-- Whether an event is a deferred-action registration with the
job-completion hook. -/
def isDeferEvent : Event → Bool
  | Event.deferStop _ => true
  | Event.deferKill _ => true
  | _ => false

/-- Whether an event is an invocation of the runtime client's run or
execute method. -/
def isClientEvent : Event → Bool
  | Event.clientRun => true
  | Event.clientExecute => true
  | _ => false

/-- Checks that in a trace every deferred-action registration happens
strictly before every runtime-client run / execute invocation: once a
client event is seen, no defer event may follow. -/
def defersBeforeClients : List Event → Bool
  | [] => true
  | e :: rest =>
    if isClientEvent e then rest.all (fun x => !(isDeferEvent x))
    else defersBeforeClients rest

/-- A container status as reported by the runtime daemon
(`container.status` in the source). -/
inductive ContainerStatus
  | running
  | exited
  | restarting
  | paused
deriving DecidableEq

/-- The daemon's answer to one `client.containers.get(container_name)`
call: a container with its status, a `NotFound` error, or an HTTP
communication error. -/
inductive Probe
  | status (s : ContainerStatus)
  | notFound
  | httpError
deriving DecidableEq

/-- An action issued to the runtime daemon by the deferred terminator:
a get-by-name lookup, an immediate kill, or a graceful stop. -/
inductive KAct
  | get
  | kill
  | stop
deriving DecidableEq

/-- How a terminator call ends: normal return, a re-raised daemon
communication error (`create_api_error_from_http_exception`, line 277),
the unbound-name read of `docker` at line 262 (the module has only
`from docker.errors import ...` and never binds the name `docker`, so
`docker.from_env` raises `NameError`), or the supplied response trace
being exhausted while the loop still runs (the source's `while` loop
spins as long as the daemon keeps reporting the container as running). -/
inductive KillOutcome
  | success
  | apiError
  | nameError
  | truncated
deriving DecidableEq

/-- The `while this_container.status == 'running'` loop of `dockerKill`'s
try block (lines 265-270), dead code behind the `NameError` of line 262.
Each iteration consumes one response for the
`client.containers.get(container_name)` whose result is killed or
stopped (lines 267, 269) and one for the re-assignment of
`this_container` (line 270).  A `NotFound` answer anywhere is caught by
the `except NotFound` of line 271 (normal return); an HTTP error is
re-raised as an API error (lines 274-277). -/
def killIter (gentle : Bool) : List Probe → List KAct × KillOutcome
  | [] => ([], KillOutcome.truncated)
  | Probe.notFound :: _ => ([KAct.get], KillOutcome.success)
  | Probe.httpError :: _ => ([KAct.get], KillOutcome.apiError)
  | Probe.status _ :: rest =>
    let act := if gentle then KAct.stop else KAct.kill
    match rest with
    | [] => ([KAct.get, act], KillOutcome.truncated)
    | Probe.notFound :: _ => ([KAct.get, act, KAct.get], KillOutcome.success)
    | Probe.httpError :: _ => ([KAct.get, act, KAct.get], KillOutcome.apiError)
    | Probe.status s2 :: rest2 =>
      if s2 = ContainerStatus.running then
        let r := killIter gentle rest2
        (KAct.get :: act :: KAct.get :: r.1, r.2)
      else ([KAct.get, act, KAct.get], KillOutcome.success)

/-- Embeds the try block of `dockerKill` (lines 263-277), which is dead
code: line 262 raises before it is reached.  An initial
`client.containers.get` (line 264) consumes the first response; if it
reports `running` the kill / stop loop runs, otherwise the call returns
normally.  `NotFound` on the initial get is caught (line 271) and an HTTP
error is re-raised (lines 274-277).  This is the behaviour the docstring
of `dockerKill` documents. -/
def dockerKillBody (gentle : Bool) (resps : List Probe) :
    List KAct × KillOutcome :=
  match resps with
  | [] => ([], KillOutcome.truncated)
  | Probe.notFound :: _ => ([KAct.get], KillOutcome.success)
  | Probe.httpError :: _ => ([KAct.get], KillOutcome.apiError)
  | Probe.status s :: rest =>
    if s = ContainerStatus.running then
      let r := killIter gentle rest
      (KAct.get :: r.1, r.2)
    else ([KAct.get], KillOutcome.success)

/-- Embeds `dockerKill` (lines 250-277): line 262 evaluates
`docker.from_env(...)`, but the module never binds the name `docker`
(only `from docker.errors import ...` at lines 17-20), so every call
raises `NameError` there — outside the `try` of line 263 — before any
daemon interaction.  The loop, the `except NotFound` and the HTTP-error
re-raise are unreachable (see `dockerKillBody`). -/
def dockerKill (_gentle : Bool) (_resps : List Probe) :
    List KAct × KillOutcome :=
  ([], KillOutcome.nameError)

/-- Embeds `dockerStop` (lines 280-287): its entire body is `pass` (the
call `dockerKill(container_name, gentleKill=True)` on line 287 is
commented out), so it performs no daemon interaction whatsoever and
returns normally. -/
def dockerStop (_resps : List Probe) : List KAct × KillOutcome :=
  ([], KillOutcome.success)

/-- A daemon communication error surfaced to the caller of
`containerIsRunning` (via `create_api_error_from_http_exception`,
line 317). -/
inductive DockerErr
  | apiError
deriving DecidableEq

/-- Embeds `containerIsRunning` (lines 290-317): the bare `return` on
line 302 makes the function return `None` unconditionally, without ever
consulting the daemon; everything from line 304 on is dead code. -/
def containerIsRunning (_env : String → Probe) (_name : String) :
    Except DockerErr (Option Bool) :=
  Except.ok none

/-- Embeds the dead code of `containerIsRunning` (lines 304-317), the
behaviour its docstring documents: `True` for a running container,
`False` for any other status, `None` on `NotFound`, and a re-raised API
error on an HTTP error. -/
def containerIsRunningDeadCode (env : String → Probe) (name : String) :
    Except DockerErr (Option Bool) :=
  match env name with
  | Probe.status ContainerStatus.running => Except.ok (some true)
  | Probe.status _ => Except.ok (some false)
  | Probe.notFound => Except.ok none
  | Probe.httpError => Except.error DockerErr.apiError

/-- A response trace on which the daemon reports the container as running
for `k + 1` consecutive kill rounds and then reports it exited: the
initial get sees `running`, each of the `k` intermediate rounds consumes
two `running` answers, and the final round sees `running` for the kill
target and `exited` for the loop re-check. -/
def runPairs : Nat → List Probe
  | 0 => []
  | n + 1 => Probe.status ContainerStatus.running ::
      Probe.status ContainerStatus.running :: runPairs n

/-- See `runPairs`. -/
def mkRunTrace (k : Nat) : List Probe :=
  Probe.status ContainerStatus.running ::
    (runPairs k ++ [Probe.status ContainerStatus.running,
                    Probe.status ContainerStatus.exited])

/-- A safe character is not a space. -/
lemma isSafeChar_ne_space {c : Char} (h : isSafeChar c = true) : ¬(c = ' ') := by
  rintro rfl; exact absurd h (by decide)

/-- A safe character is not a horizontal tab. -/
lemma isSafeChar_ne_htab {c : Char} (h : isSafeChar c = true) : ¬(c = htab) := by
  rintro rfl; exact absurd h (by decide)

/-- A safe character is not a newline. -/
lemma isSafeChar_ne_nlchar {c : Char} (h : isSafeChar c = true) : ¬(c = nlchar) := by
  rintro rfl; exact absurd h (by decide)

/-- A safe character is not a single quote. -/
lemma isSafeChar_ne_squote {c : Char} (h : isSafeChar c = true) : ¬(c = squote) := by
  rintro rfl; exact absurd h (by decide)

/-- A safe character is not a double quote. -/
lemma isSafeChar_ne_dquote {c : Char} (h : isSafeChar c = true) : ¬(c = dquote) := by
  rintro rfl; exact absurd h (by decide)

/-- A safe character is not a backslash. -/
lemma isSafeChar_ne_bslash {c : Char} (h : isSafeChar c = true) : ¬(c = bslash) := by
  rintro rfl; exact absurd h (by decide)

/-- Tokenizer step: a safe character outside quotes is accumulated into
the current token. -/
lemma shellSplitAux_step_safe {c : Char} (h : isSafeChar c = true)
    (acc : List Char) (st : Bool) (cs : List Char) :
    shellSplitAux .norm acc st (c :: cs) = shellSplitAux .norm (c :: acc) true cs := by
  rw [shellSplitAux.eq_def]
  simp [isSafeChar_ne_space h, isSafeChar_ne_htab h, isSafeChar_ne_nlchar h,
    isSafeChar_ne_squote h, isSafeChar_ne_dquote h, isSafeChar_ne_bslash h]

/-- Tokenizer step: a space after an in-progress token emits the token. -/
lemma shellSplitAux_step_sep (acc : List Char) (cs : List Char) :
    shellSplitAux .norm acc true (' ' :: cs) =
      acc.reverse :: shellSplitAux .norm [] false cs := by
  rw [shellSplitAux.eq_def]; simp

/-- Tokenizer step: a single quote outside quotes opens a single-quoted
section. -/
lemma shellSplitAux_step_squote_norm (acc : List Char) (st : Bool) (cs : List Char) :
    shellSplitAux .norm acc st (squote :: cs) = shellSplitAux .single acc true cs := by
  have h1 : ¬(squote = ' ') := by decide
  have h2 : ¬(squote = htab) := by decide
  have h3 : ¬(squote = nlchar) := by decide
  rw [shellSplitAux.eq_def]; simp [h1, h2, h3]

/-- Tokenizer step: a double quote outside quotes opens a double-quoted
section. -/
lemma shellSplitAux_step_dquote_norm (acc : List Char) (st : Bool) (cs : List Char) :
    shellSplitAux .norm acc st (dquote :: cs) = shellSplitAux .double acc true cs := by
  have h1 : ¬(dquote = ' ') := by decide
  have h2 : ¬(dquote = htab) := by decide
  have h3 : ¬(dquote = nlchar) := by decide
  have h4 : ¬(dquote = squote) := by decide
  rw [shellSplitAux.eq_def]; simp [h1, h2, h3, h4]

/-- Tokenizer step: a single quote closes a single-quoted section. -/
lemma shellSplitAux_step_squote_single (acc : List Char) (st : Bool) (cs : List Char) :
    shellSplitAux .single acc st (squote :: cs) = shellSplitAux .norm acc st cs := by
  rw [shellSplitAux.eq_def]; simp

/-- Tokenizer step: any other character inside single quotes is literal. -/
lemma shellSplitAux_step_other_single {c : Char} (h : ¬(c = squote))
    (acc : List Char) (st : Bool) (cs : List Char) :
    shellSplitAux .single acc st (c :: cs) = shellSplitAux .single (c :: acc) st cs := by
  rw [shellSplitAux.eq_def]; simp [h]

/-- Tokenizer step: a double quote closes a double-quoted section. -/
lemma shellSplitAux_step_dquote_double (acc : List Char) (st : Bool) (cs : List Char) :
    shellSplitAux .double acc st (dquote :: cs) = shellSplitAux .norm acc st cs := by
  rw [shellSplitAux.eq_def]; simp

/-- Tokenizer step: a single quote inside double quotes is literal. -/
lemma shellSplitAux_step_squote_double (acc : List Char) (st : Bool) (cs : List Char) :
    shellSplitAux .double acc st (squote :: cs) =
      shellSplitAux .double (squote :: acc) st cs := by
  have h1 : ¬(squote = dquote) := by decide
  have h2 : ¬(squote = bslash) := by decide
  rw [shellSplitAux.eq_def]; simp [h1, h2]

/-- Tokenizer step: end of input with a token in progress emits it. -/
lemma shellSplitAux_step_end (acc : List Char) :
    shellSplitAux .norm acc true [] = [acc.reverse] := by
  rw [shellSplitAux.eq_def]; simp

/-- Tokenizer step: a run of safe characters is accumulated wholesale. -/
lemma shellSplitAux_safe_run :
    ∀ (cs : List Char) (c : Char) (acc : List Char) (st : Bool) (rest : List Char),
      isSafeChar c = true → (∀ x ∈ cs, isSafeChar x = true) →
      shellSplitAux .norm acc st (c :: cs ++ rest) =
        shellSplitAux .norm ((c :: cs).reverse ++ acc) true rest := by
  intro cs
  induction cs with
  | nil =>
    intro c acc st rest hc _
    simpa using shellSplitAux_step_safe hc acc st rest
  | cons x xs ih =>
    intro c acc st rest hc hall
    have hx : isSafeChar x = true := hall x (List.mem_cons_self x xs)
    have hxs : ∀ y ∈ xs, isSafeChar y = true :=
      fun y hy => hall y (List.mem_cons_of_mem x hy)
    rw [List.cons_append, shellSplitAux_step_safe hc, ih x (c :: acc) true rest hx hxs]
    simp [List.append_assoc]

/-- Tokenizer run: the escaped body of a single-quoted section is read
back verbatim, ending at the closing quote. -/
lemma shellSplitAux_escBody :
    ∀ (s : List Char) (acc : List Char) (rest : List Char),
      shellSplitAux .single acc true (escBody s ++ squote :: rest) =
        shellSplitAux .norm (s.reverse ++ acc) true rest := by
  intro s
  induction s with
  | nil =>
    intro acc rest
    simp only [escBody, List.nil_append, List.reverse_nil]
    exact shellSplitAux_step_squote_single acc true rest
  | cons c cs ih =>
    intro acc rest
    by_cases hc : c = squote
    · subst hc
      rw [show escBody (squote :: cs) =
            squote :: dquote :: squote :: dquote :: squote :: escBody cs by
          simp [escBody]]
      rw [List.cons_append, List.cons_append, List.cons_append,
        List.cons_append, List.cons_append]
      rw [shellSplitAux_step_squote_single, shellSplitAux_step_dquote_norm,
        shellSplitAux_step_squote_double, shellSplitAux_step_dquote_double,
        shellSplitAux_step_squote_norm]
      rw [ih (squote :: acc) rest]
      simp [List.append_assoc]
    · rw [show escBody (c :: cs) = c :: escBody cs by simp [escBody, hc]]
      rw [List.cons_append, shellSplitAux_step_other_single hc, ih (c :: acc) rest]
      simp [List.append_assoc]

/-- Tokenizer run: one shell-quoted element followed by anything is read
back as the original element. -/
lemma shellSplitAux_quote (s : List Char) (rest : List Char) :
    shellSplitAux .norm [] false (quoteL s ++ rest) =
      shellSplitAux .norm s.reverse true rest := by
  by_cases hs : s = []
  · subst hs
    rw [show quoteL [] = [squote, squote] by simp [quoteL]]
    rw [show ([squote, squote] : List Char) ++ rest = squote :: squote :: rest by simp]
    rw [shellSplitAux_step_squote_norm, shellSplitAux_step_squote_single]
    simp
  · by_cases hsafe : s.all isSafeChar
    · obtain ⟨c, cs, rfl⟩ : ∃ c cs, s = c :: cs := by
        cases s with
        | nil => exact absurd rfl hs
        | cons a as => exact ⟨a, as, rfl⟩
      have hall : ∀ x ∈ c :: cs, isSafeChar x = true := by
        intro x hx; exact List.all_eq_true.mp hsafe x hx
      have := shellSplitAux_safe_run cs c [] false rest
        (hall c (List.mem_cons_self c cs))
        (fun y hy => hall y (List.mem_cons_of_mem c hy))
      simpa [quoteL, hs, hsafe] using this
    · have hq : quoteL s = squote :: (escBody s ++ [squote]) := by
        simp [quoteL, hs, hsafe]
      rw [hq, List.cons_append, shellSplitAux_step_squote_norm]
      have harr : (escBody s ++ [squote]) ++ rest = escBody s ++ squote :: rest := by
        simp [List.append_assoc]
      rw [harr, shellSplitAux_escBody s [] rest]
      simp

/-- The composed flat command splits back into the original parameter
list, for every parameter list. -/
lemma shellSplit_composeFlat : ∀ (ps : List (List Char)),
    shellSplitAux .norm [] false (joinSep (ps.map quoteL)) = ps := by
  intro ps
  induction ps with
  | nil =>
    simp only [List.map, joinSep]
    rw [shellSplitAux.eq_def]; simp
  | cons s ss ih =>
    cases ss with
    | nil =>
      have := shellSplitAux_quote s []
      rw [List.append_nil] at this
      simp only [List.map, joinSep, this]
      rw [shellSplitAux_step_end, List.reverse_reverse]
    | cons t ts =>
      simp only [List.map, joinSep]
      rw [shellSplitAux_quote, shellSplitAux_step_sep, List.reverse_reverse]
      simp only [List.map, joinSep] at ih
      rw [ih]

/-- C6: for every non-empty flat parameter list `P` of strings, the
command composer shell-quotes each element and joins them with single
spaces, and re-splitting the composed command string by POSIX shell
tokenization rules reproduces `P` exactly. -/
theorem flat_roundtrip (P : List (List Char)) (_hP : P ≠ []) :
    shellSplit (composeFlatL P) = P :=
  shellSplit_composeFlat P

/-- Witness for `flat_roundtrip` at the concrete parameter list
`["echo", "a b"]`. -/
theorem flat_roundtrip_witness :
    (["echo".data, "a b".data] : List (List Char)) ≠ [] ∧
      shellSplit (composeFlatL ["echo".data, "a b".data]) =
        ["echo".data, "a b".data] :=
  ⟨by decide, flat_roundtrip ["echo".data, "a b".data] (by decide)⟩

/-- Every character of an escaped body is a quote character or comes from
the original string. -/
lemma mem_escBody (x : Char) : ∀ (s : List Char),
    x ∈ escBody s → x = squote ∨ x = dquote ∨ x ∈ s := by
  intro s
  induction s with
  | nil => intro hx; simp [escBody] at hx
  | cons c cs ih =>
    intro hx
    by_cases hc : c = squote
    · subst hc
      rw [show escBody (squote :: cs) =
            squote :: dquote :: squote :: dquote :: squote :: escBody cs by
          simp [escBody]] at hx
      rcases List.mem_cons.mp hx with rfl | hx
      · exact Or.inl rfl
      rcases List.mem_cons.mp hx with rfl | hx
      · exact Or.inr (Or.inl rfl)
      rcases List.mem_cons.mp hx with rfl | hx
      · exact Or.inl rfl
      rcases List.mem_cons.mp hx with rfl | hx
      · exact Or.inr (Or.inl rfl)
      rcases List.mem_cons.mp hx with rfl | hx
      · exact Or.inl rfl
      rcases ih hx with h | h | h
      · exact Or.inl h
      · exact Or.inr (Or.inl h)
      · exact Or.inr (Or.inr (List.mem_cons_of_mem _ h))
    · rw [show escBody (c :: cs) = c :: escBody cs by simp [escBody, hc]] at hx
      rcases List.mem_cons.mp hx with rfl | hx
      · exact Or.inr (Or.inr (List.mem_cons_self _ _))
      rcases ih hx with h | h | h
      · exact Or.inl h
      · exact Or.inr (Or.inl h)
      · exact Or.inr (Or.inr (List.mem_cons_of_mem _ h))

/-- Every character of a quoted element is a quote character or comes
from the original element. -/
lemma mem_quoteL (x : Char) (s : List Char) :
    x ∈ quoteL s → x = squote ∨ x = dquote ∨ x ∈ s := by
  intro hx
  by_cases hs : s = []
  · subst hs
    rw [show quoteL [] = [squote, squote] by simp [quoteL]] at hx
    rcases List.mem_cons.mp hx with rfl | hx
    · exact Or.inl rfl
    rcases List.mem_cons.mp hx with rfl | hx
    · exact Or.inl rfl
    · exact absurd hx (List.not_mem_nil x)
  · by_cases hsafe : s.all isSafeChar
    · rw [show quoteL s = s by simp [quoteL, hs, hsafe]] at hx
      exact Or.inr (Or.inr hx)
    · rw [show quoteL s = squote :: (escBody s ++ [squote]) by
          simp [quoteL, hs, hsafe]] at hx
      rcases List.mem_cons.mp hx with rfl | hx
      · exact Or.inl rfl
      rcases List.mem_append.mp hx with hx | hx
      · exact mem_escBody x s hx
      rcases List.mem_cons.mp hx with rfl | hx
      · exact Or.inl rfl
      · exact absurd hx (List.not_mem_nil x)

/-- Every character of a space-join is a space or comes from one of the
pieces. -/
lemma mem_joinSep (x : Char) : ∀ (l : List (List Char)),
    x ∈ joinSep l → x = ' ' ∨ ∃ y ∈ l, x ∈ y := by
  intro l
  induction l with
  | nil => intro hx; simp [joinSep] at hx
  | cons a l2 ih =>
    cases l2 with
    | nil =>
      intro hx
      simp only [joinSep] at hx
      exact Or.inr ⟨a, List.mem_cons_self a [], hx⟩
    | cons b bs =>
      intro hx
      simp only [joinSep, List.mem_append, List.mem_cons] at hx
      rcases hx with hx | rfl | hx
      · exact Or.inr ⟨a, List.mem_cons_self _ _, hx⟩
      · exact Or.inl rfl
      · rcases ih hx with h | ⟨y, hy, hxy⟩
        · exact Or.inl h
        · exact Or.inr ⟨y, List.mem_cons_of_mem _ hy, hxy⟩

/-- If no argument contains a pipe character, neither does the composed
flat command. -/
lemma bar_notin_composeFlat (args : List (List Char))
    (h : ∀ a ∈ args, '|' ∉ a) : '|' ∉ composeFlatL args := by
  intro hx
  rcases mem_joinSep '|' (args.map quoteL) hx with hsp | ⟨y, hy, hxy⟩
  · exact absurd hsp (by decide)
  · rcases List.mem_map.mp hy with ⟨a, ha, rfl⟩
    rcases mem_quoteL '|' a hxy with hq | hq | hq
    · exact absurd hq (by decide)
    · exact absurd hq (by decide)
    · exact h a ha hq

/-- The number of pipe characters in a pipe-join of pipe-free stages is
the number of stages minus one. -/
lemma count_bar_joinBar : ∀ (l : List (List Char)),
    (∀ x ∈ l, '|' ∉ x) → l ≠ [] →
    List.count '|' (joinBar l) = l.length - 1 := by
  intro l
  induction l with
  | nil => intro _ hne; exact absurd rfl hne
  | cons a l2 ih =>
    cases l2 with
    | nil =>
      intro h _
      simp only [joinBar, List.length_singleton]
      exact List.count_eq_zero.mpr (h a (List.mem_cons_self a []))
    | cons b bs =>
      intro h _
      have ha : List.count '|' a = 0 :=
        List.count_eq_zero.mpr (h a (List.mem_cons_self _ _))
      have hrec := ih (fun x hx => h x (List.mem_cons_of_mem a hx))
        (List.cons_ne_nil b bs)
      have e1 : (('|' : Char) == ' ') = false := by decide
      have e2 : (('|' : Char) == '|') = true := by decide
      simp only [joinBar, List.count_append, List.count_cons, ha, hrec, e1, e2,
        List.length_cons]
      simp

/-- C5 counterexample: the claimed composition of
`[["echo","a"],["grep","a"]]` with quoted arguments does not match what
the code produces, because `shlex.quote` leaves safe tokens unquoted. -/
theorem pipeline_example_quote_mismatch :
    composePipelineL [["echo".data, "a".data], ["grep".data, "a".data]] ≠
      "set -eo pipefail && echo 'a' | grep 'a'".data := by decide

/-- C5 (amended): for nested parameters the command composer joins one
quoted stage per inner list with a pipe and prepends the pipefail guard;
a nested list of `N` inner lists (none of whose arguments contains a pipe
character) yields a command with exactly `N - 1` pipe characters, and
`[["echo","a"],["grep","a"]]` composes to `echo a | grep a` prefixed by
the guard. -/
theorem pipeline_composition (stages : List (List (List Char)))
    (h1 : stages ≠ [])
    (h2 : ∀ st ∈ stages, ∀ arg ∈ st, '|' ∉ arg) :
    List.count '|' (composePipelineL stages) = stages.length - 1 ∧
    composePipelineL [["echo".data, "a".data], ["grep".data, "a".data]] =
      "set -eo pipefail && echo a | grep a".data ∧
    composePipelineL stages = guardL ++ joinBar (stages.map composeFlatL) := by
  refine ⟨?_, by decide, rfl⟩
  unfold composePipelineL
  rw [List.count_append]
  have hg : List.count '|' guardL = 0 := by decide
  have hstages : ∀ x ∈ stages.map composeFlatL, '|' ∉ x := by
    intro x hx
    rcases List.mem_map.mp hx with ⟨st, hst, rfl⟩
    exact bar_notin_composeFlat st (h2 st hst)
  have hne : stages.map composeFlatL ≠ [] := by
    intro hmap; exact h1 (List.map_eq_nil_iff.mp hmap)
  rw [hg, count_bar_joinBar _ hstages hne, List.length_map]
  omega

/-- Witness for `pipeline_composition` at the concrete nested parameter
list `[["echo","a"],["grep","a"]]`. -/
theorem pipeline_composition_witness :
    List.count '|'
        (composePipelineL [["echo".data, "a".data], ["grep".data, "a".data]]) =
      [["echo".data, "a".data], ["grep".data, "a".data]].length - 1 ∧
    composePipelineL [["echo".data, "a".data], ["grep".data, "a".data]] =
      "set -eo pipefail && echo a | grep a".data ∧
    composePipelineL [["echo".data, "a".data], ["grep".data, "a".data]] =
      guardL ++ joinBar
        ([["echo".data, "a".data], ["grep".data, "a".data]].map composeFlatL) :=
  pipeline_composition [["echo".data, "a".data], ["grep".data, "a".data]]
    (by decide) (by decide)

/-- The event traces `apiSingularityCall` can produce, by case analysis
on the directive and the remove flag. -/
lemma api_events_forms (dp : Option Int) (rm : Bool) (n : String)
    (s d : Bool) :
    (apiSingularityCall dp rm n s d).events = [] ∨
    (apiSingularityCall dp rm n s d).events = [Event.getClient] ∨
    (apiSingularityCall dp rm n s d).events =
      [Event.getClient, Event.deferKill n] ∨
    (apiSingularityCall dp rm n s d).events =
      [Event.getClient, Event.deferStop n] ∨
    (apiSingularityCall dp rm n s d).events =
      [Event.getClient, Event.deferStop n, Event.deferKill n] := by
  by_cases h : validDefer dp
  · have h2 := h
    unfold validDefer at h2
    rcases h2 with rfl | rfl | rfl | rfl <;> cases rm <;>
      simp [apiSingularityCall, validDefer, FORGO, STOP, RM]
  · simp [apiSingularityCall, if_neg h]

/-- C1 counterexample: with directive `STOP` and `remove=True` the
invoker registers two deferred actions with the job-completion hook, not
at most one. -/
theorem stop_remove_registers_two :
    ((apiSingularityCall (some STOP) true "c" false false).events.countP
      isDeferEvent) = 2 := by decide

/-- C1 (amended): `FORGO` registers zero deferred actions, `RM` registers
exactly one deferred force-kill, and every combination of directive and
remove flag registers at most one deferred action except `STOP` together
with `remove=True`, which registers two (a graceful-stop and a
force-kill). -/
theorem defer_registration_policy (dp : Option Int) (rm : Bool)
    (n : String) (s d : Bool) :
    (apiSingularityCall (some FORGO) rm n s d).events.countP isDeferEvent = 0 ∧
    (apiSingularityCall (some RM) rm n s d).events.filter isDeferEvent =
      [Event.deferKill n] ∧
    ((apiSingularityCall dp rm n s d).events.countP isDeferEvent ≤ 1 ∨
      (dp = some STOP ∧ rm = true)) := by
  refine ⟨?_, ?_, ?_⟩
  · have hv : validDefer (some FORGO) := Or.inr (Or.inl rfl)
    cases rm <;>
      simp [apiSingularityCall, validDefer, FORGO, STOP, RM, isDeferEvent]
  · cases rm <;>
      simp [apiSingularityCall, validDefer, FORGO, STOP, RM, isDeferEvent,
        List.filter]
  · by_cases hv : validDefer dp
    · have h2 := hv
      unfold validDefer at h2
      rcases h2 with rfl | rfl | rfl | rfl
      · refine Or.inl ?_
        cases rm <;>
          simp [apiSingularityCall, validDefer, FORGO, STOP, RM, isDeferEvent]
      · refine Or.inl ?_
        cases rm <;>
          simp [apiSingularityCall, validDefer, FORGO, STOP, RM, isDeferEvent]
      · cases rm with
        | true => exact Or.inr ⟨rfl, rfl⟩
        | false =>
          refine Or.inl ?_
          simp [apiSingularityCall, validDefer, FORGO, STOP, RM, isDeferEvent]
      · refine Or.inl ?_
        cases rm <;>
          simp [apiSingularityCall, validDefer, FORGO, STOP, RM, isDeferEvent]
    · refine Or.inl ?_
      simp [apiSingularityCall, if_neg hv]

/-- C7: for every directive outside the valid enumeration,
`apiSingularityCall` fails fast with the assertion error of line 204: no
runtime-client method is invoked and no deferred action is registered. -/
theorem invalid_defer_fails_fast (dp : Option Int) (rm : Bool) (n : String)
    (s d : Bool) (h : ¬ validDefer dp) :
    (apiSingularityCall dp rm n s d).events = [] ∧
    (apiSingularityCall dp rm n s d).outcome =
      Except.error PyError.assertionError := by
  constructor <;> simp [apiSingularityCall, if_neg h]

/-- Witness for `invalid_defer_fails_fast` at the out-of-enumeration
directive `5`. -/
theorem invalid_defer_fails_fast_witness :
    (apiSingularityCall (some 5) false "c" false false).events = [] ∧
    (apiSingularityCall (some 5) false "c" false false).outcome =
      Except.error PyError.assertionError :=
  invalid_defer_fails_fast (some 5) false "c" false false (by decide)

/-- C9: in every execution, all deferred-action registrations happen
strictly before any runtime-client run / execute invocation (in fact the
trace never contains a run / execute event at all, because line 220
raises before the client is called); for `RM` the force-kill is
registered even though the invocation itself then fails. -/
theorem defer_registered_before_client_call (dp : Option Int) (rm : Bool)
    (n : String) (s d : Bool) :
    defersBeforeClients (apiSingularityCall dp rm n s d).events = true ∧
    Event.deferKill n ∈ (apiSingularityCall (some RM) rm n s d).events ∧
    (apiSingularityCall (some RM) rm n s d).outcome =
      Except.error PyError.nameError := by
  refine ⟨?_, ?_, ?_⟩
  · rcases api_events_forms dp rm n s d with h | h | h | h | h <;>
      rw [h] <;> simp [defersBeforeClients, isClientEvent, isDeferEvent]
  · cases rm <;> simp [apiSingularityCall, validDefer, FORGO, STOP, RM]
  · simp [apiSingularityCall, validDefer, FORGO, STOP, RM]

/-- C10: for every directive that passes validation, `apiSingularityCall`
reads the never-assigned name `auto_remove` (line 220) and raises
`NameError` before the runtime client's run or execute method is ever
invoked; the success path is unreachable. -/
theorem auto_remove_read_raises (dp : Option Int) (rm : Bool) (n : String)
    (s d : Bool) (h : validDefer dp) :
    (apiSingularityCall dp rm n s d).outcome =
      Except.error PyError.nameError ∧
    (apiSingularityCall dp rm n s d).events.countP isClientEvent = 0 := by
  constructor
  · simp [apiSingularityCall, if_pos h]

  · rcases api_events_forms dp rm n s d with he | he | he | he | he <;>
      rw [he] <;> simp [isClientEvent]

/-- Witness for `auto_remove_read_raises` at the directive `RM`. -/
theorem auto_remove_read_raises_witness :
    (apiSingularityCall (some RM) false "c" false false).outcome =
      Except.error PyError.nameError ∧
    (apiSingularityCall (some RM) false "c" false false).events.countP
      isClientEvent = 0 :=
  auto_remove_read_raises (some RM) false "c" false false (by decide)

/-- C4 evaluation: a detached invocation with no capture requested
(detach true, stream and capture flags false) computes `stream = True`
locally (line 134) but ends in the `NameError` of line 220 after only the
client lookup, so no live container handle is ever returned and the
runtime client's run method is never reached. -/
theorem detached_call_never_returns_handle :
    (apiSingularityCall none false "cont" false true).streamLocal = true ∧
    (apiSingularityCall none false "cont" false true).outcome =
      Except.error PyError.nameError ∧
    (apiSingularityCall none false "cont" false true).events =
      [Event.getClient] := by
  refine ⟨?_, ?_, ?_⟩ <;>
    simp [apiSingularityCall, validDefer]

/-- C2 evaluation: `containerIsRunning` returns `None` for every
environment and name, even when the daemon would report the container as
running; the dead code after the bare `return` is what the docstring
documents. -/
theorem probe_returns_none_unconditionally (env : String → Probe)
    (n : String) :
    containerIsRunning env n = Except.ok none ∧
    containerIsRunningDeadCode
        (fun _ => Probe.status ContainerStatus.running) "c" =
      Except.ok (some true) :=
  ⟨rfl, rfl⟩

/-- C3 evaluation: `dockerStop` performs no daemon interaction at all —
no graceful stop and no kill is ever requested, even for a container the
daemon would report as running. -/
theorem dockerStop_performs_no_action (resps : List Probe) :
    dockerStop resps = ([], KillOutcome.success) ∧
    KAct.stop ∉ (dockerStop [Probe.status ContainerStatus.running]).1 ∧
    KAct.kill ∉ (dockerStop [Probe.status ContainerStatus.running]).1 :=
  ⟨rfl, by decide, by decide⟩

/-- The kill loop on a trace of `k + 1` kill rounds ending in `exited`
returns success after exactly `k + 1` kill requests. -/
lemma killIter_runPairs (k : Nat) :
    (killIter false (runPairs k ++ [Probe.status ContainerStatus.running,
      Probe.status ContainerStatus.exited])).2 = KillOutcome.success ∧
    (killIter false (runPairs k ++ [Probe.status ContainerStatus.running,
      Probe.status ContainerStatus.exited])).1.count KAct.kill = k + 1 := by
  induction k with
  | zero =>
    constructor
    · rfl
    · rfl
  | succ m ih =>
    have hstep : killIter false (runPairs (m + 1) ++
        [Probe.status ContainerStatus.running,
         Probe.status ContainerStatus.exited]) =
        (KAct.get :: KAct.kill :: KAct.get ::
          (killIter false (runPairs m ++
            [Probe.status ContainerStatus.running,
             Probe.status ContainerStatus.exited])).1,
         (killIter false (runPairs m ++
            [Probe.status ContainerStatus.running,
             Probe.status ContainerStatus.exited])).2) := by
      rw [show runPairs (m + 1) = Probe.status ContainerStatus.running ::
            Probe.status ContainerStatus.running :: runPairs m from rfl]
      rw [killIter.eq_def]
      simp
    constructor
    · rw [hstep]; exact ih.1
    · rw [hstep]
      have e1 : (KAct.kill == KAct.get) = false := by decide
      have e2 : (KAct.kill == KAct.kill) = true := by decide
      simp only [List.count_cons, ih.2]
      simp [List.count_cons, e1, e2, ih.2]

/-- C8 evaluation: because the module never imports `docker`, every
`dockerKill` call raises `NameError` at line 262 before any daemon
interaction — it issues no kill request and never returns normally,
whatever the daemon would have answered.  The behaviour the claim and the
docstring describe lives only in the unreachable try block
(`dockerKillBody`): there a `NotFound` answer — initially or mid-loop —
is treated as success, an HTTP communication error propagates as an API
error, and a trace with `k + 1` rounds of `running` draws exactly `k + 1`
kill requests before a normal return. -/
theorem dockerKill_raises_before_daemon (gentle : Bool)
    (resps rest : List Probe) (k : Nat) :
    dockerKill gentle resps = ([], KillOutcome.nameError) ∧
    (dockerKillBody false (Probe.notFound :: rest)).2 = KillOutcome.success ∧
    (dockerKillBody false (Probe.httpError :: rest)).2 = KillOutcome.apiError ∧
    (dockerKillBody false (Probe.status ContainerStatus.running ::
      Probe.notFound :: rest)).2 = KillOutcome.success ∧
    (dockerKillBody false (mkRunTrace k)).2 = KillOutcome.success ∧
    (dockerKillBody false (mkRunTrace k)).1.count KAct.kill = k + 1 := by
  have hmk : dockerKillBody false (mkRunTrace k) =
      (KAct.get :: (killIter false (runPairs k ++
        [Probe.status ContainerStatus.running,
         Probe.status ContainerStatus.exited])).1,
       (killIter false (runPairs k ++
        [Probe.status ContainerStatus.running,
         Probe.status ContainerStatus.exited])).2) := by
    rw [show mkRunTrace k = Probe.status ContainerStatus.running ::
          (runPairs k ++ [Probe.status ContainerStatus.running,
            Probe.status ContainerStatus.exited]) from rfl]
    rw [dockerKillBody.eq_def]
    simp
  refine ⟨rfl, rfl, rfl, ?_, ?_, ?_⟩
  · rw [dockerKillBody.eq_def]
    simp [killIter.eq_def]
  · rw [hmk]; exact (killIter_runPairs k).1
  · rw [hmk]
    have e1 : (KAct.kill == KAct.get) = false := by decide
    simp [List.count_cons, e1, (killIter_runPairs k).2]

end ToilSing
